import Mathlib

/-!
# Verification of the `getfw.py` firmware gather/patch engine

Shallow embedding of `scripts/getfw.py` from the linux-surface/aarch64-firmware
repository.  Pure data and algorithms (file-map normalization, prefix-based
directory resolution, the logger prefix table) are embedded directly; stateful
code (file copies, symlinks, directory removal, the gather and patch loops) is
embedded as explicit state passing over an association-list filesystem, with
fallible operations returning `Except`.

Modelling conventions:
* A Python exception is an `Except.error` carrying a `PyError`; an uncaught
  exception aborting a loop is modelled by the runner functions stopping at the
  first `.error`.
* The filesystem is a finite association list from path strings to entries
  (regular files or symbolic links); directories are implicit in paths, so
  `mkdir(parents=True, exist_ok=True)` is a no-op, and a directory exists for
  `shutil.rmtree` iff some entry lies strictly below it.
* `subprocess.call` runs an external tool: the tool may write files (given as
  an explicit `writes` list) and produces an exit status which the *caller*
  receives as a plain value — exactly like the Python API, which never raises
  on a non-zero exit status.
-/

namespace Getfw

/-! ## Constants (getfw.py lines 15-22) -/

def ATH10K_BOARD_FILE : String := "bdwlan.b58"

def ATH10K_BOARD_NAME : String := "bus=snoc,qmi-board-id=ff,qmi-chip-id=30224"

def PATH_PLATFORM : String := "msft/surface/pro-x-sq2"

def PATH_VENUS : String := "venus-5.2"

/-! ## Errors

Python exceptions that the script can raise, plus — for stating spec-side
properties only — the `SourceNotFoundError` that the spec's error taxonomy
postulates but the script never raises.
-/

inductive PyError where
  /-- `TypeError`, e.g. from `None / s` when a source directory was not found. -/
  | typeError
  /-- `raise Exception("invalid file map")` in `Firmware._filemap`
  (getfw.py line 62); this is the exception the spec's error taxonomy calls
  `ConfigurationError`. -/
  | configurationError
  /-- `FileNotFoundError` for the given path. -/
  | fileNotFound (path : String)
  /-- `FileExistsError` for the given path. -/
  | fileExists (path : String)
  /-- `IndexError: list index out of range`. -/
  | indexError
  /-- Modelled from the spec: `SourceNotFoundError` naming the prefix and the
  repository root.  No statement in `getfw.py` raises it; it exists here only
  so that claims mentioning it can be stated. -/
  | sourceNotFound (pfx root : String)
deriving DecidableEq, Repr

/-! ## Logger (getfw.py lines 28-40) -/

def log_pfx : List String := ["==> ", " -> ", "    "]

structure Logger where
  level : Nat
  pfx : String
deriving DecidableEq, Repr

/-- `Logger.__init__`: `self.pfx = Logger.log_pfx[level]` raises `IndexError`
when `level` is out of range of the three-entry prefix table. -/
def Logger.init (level : Nat) : Except PyError Logger :=
  match log_pfx[level]? with
  | some p => .ok ⟨level, p⟩
  | none => .error .indexError

/-- `Logger.sub`: `Logger(level=self.level + 1)`. -/
def Logger.sub (l : Logger) : Except PyError Logger :=
  Logger.init (l.level + 1)

/-! ## Filesystem model -/

inductive Entry where
  | file (content : String)
  | symlink (target : String)
deriving DecidableEq, Repr

/-- The output/input tree: association list from paths to entries. -/
abbrev FS := List (String × Entry)

/-- First-match lookup in an association list. -/
def alLookup {α : Type} (d : List (String × α)) (k : String) : Option α :=
  (d.find? (fun p => p.1 == k)).map Prod.snd

/-- Python-`dict`-style insertion: overwrite in place if the key is present
(keeping its position), append otherwise.  Also used for filesystem writes. -/
def alInsert {α : Type} (d : List (String × α)) (k : String) (v : α) :
    List (String × α) :=
  if d.any (fun p => p.1 == k) then
    d.map (fun p => if p.1 == k then (k, v) else p)
  else
    d ++ [(k, v)]

/-- Remove every binding of a key. -/
def alErase {α : Type} (d : List (String × α)) (k : String) :
    List (String × α) :=
  d.filter (fun p => !(p.1 == k))

/-! ## File-map normalization (`Firmware._filemap`, getfw.py lines 55-62) -/

/-- The dynamic shapes a `files` argument can take: a Python `list` of
strings, a `dict` of string to string (as an insertion-ordered association
list with unique keys, which is what a Python `dict` literal is), or any
other value (`desc` describes it, e.g. `"3"` for the integer 3). -/
inductive FileInput where
  | flist (xs : List String)
  | fdict (m : List (String × String))
  | other (desc : String)
deriving DecidableEq, Repr

/-- `Firmware._filemap`: a list becomes the identity dict `{x: x for x in
files}`, a dict passes through, anything else raises
`Exception("invalid file map")`. -/
def filemap : FileInput → Except PyError (List (String × String))
  | .flist xs => .ok (xs.foldl (fun d x => alInsert d x x) [])
  | .fdict m => .ok m
  | .other _ => .error .configurationError

/-! ## Execution context (`args` namespace built in `main`) -/

/-- `args.path_wdsfr` is modelled by the listing of its direct children
(what `args.path_wdsfr.iterdir()` yields, in iteration order), and
`args.path_out` by a path string. -/
structure Args where
  wdsfr_listing : List String
  path_out : String
deriving DecidableEq, Repr

/-- `pathlib`'s `/` operator. -/
def pjoin (a b : String) : String := a ++ "/" ++ b

/-- Python's `s.startswith(pre)`, written over the character lists so that
it evaluates inside the kernel. -/
def startswith (s pre : String) : Bool := pre.data.isPrefixOf s.data

/-- Helper for `py_replace`, structurally recursing on a fuel bound (the
length of the subject string suffices for a non-empty pattern). -/
def replaceAux (pat rep : List Char) : Nat → List Char → List Char
  | _, [] => []
  | 0, l => l
  | fuel + 1, c :: rest =>
    if pat.isPrefixOf (c :: rest) then
      rep ++ replaceAux pat rep fuel (List.drop pat.length (c :: rest))
    else
      c :: replaceAux pat rep fuel rest

/-- Python's `s.replace(pat, rep)`: replace all non-overlapping occurrences
left to right.  (The script only ever calls it with the non-empty pattern
`'21'`; the empty-pattern edge case is not modelled.) -/
def py_replace (s pat rep : String) : String :=
  if pat.data.isEmpty then s
  else ⟨replaceAux pat.data rep.data s.data.length s.data⟩

/-! ## WindowsDriverFirmware (getfw.py lines 72-96) -/

/-- A `WindowsDriverFirmware` after construction: `files` already went
through `Firmware._filemap`. -/
structure WindowsDriverFirmware where
  name : String
  target_directory : String
  source_directory : String
  files : List (String × String)
deriving DecidableEq, Repr

/-- `WindowsDriverFirmware._find_source_directory`: return the first child of
the repository root whose name starts with the configured prefix; falls off
the loop (returning `None`) when none matches. -/
def find_source_directory (listing : List String) (sdir : String) :
    Option String :=
  listing.find? (fun p => startswith p sdir)

/-- `shutil.copy`: fails with `FileNotFoundError` when the source is absent,
otherwise overwrites the destination. -/
def copy (src tgt : String) (fs : FS) : Except PyError FS :=
  match alLookup fs src with
  | none => .error (.fileNotFound src)
  | some e => .ok (alInsert fs tgt e)

/-- `WindowsDriverFirmware.get`: resolve the base directory, then copy each
file-map pair.  When resolution produced `None`, the first loop iteration
evaluates `base / s`, which in Python raises `TypeError` — so `.typeError`
can arise only from inside the copy loop. -/
def WindowsDriverFirmware.get (fw : WindowsDriverFirmware) (args : Args)
    (fs : FS) : Except PyError FS :=
  let base := find_source_directory args.wdsfr_listing fw.source_directory
  fw.files.foldlM
    (fun fs st =>
      match base with
      | none => .error .typeError
      | some b =>
          copy (pjoin b st.1) (pjoin (pjoin args.path_out fw.target_directory) st.2) fs)
    fs

/-! ## Source construction (the module-level `sources = [...]` literal) -/

/-- The literal arguments of one `WindowsDriverFirmware(...)` constructor
call in the `sources` list. -/
structure SourceDecl where
  name : String
  target_directory : String
  source_directory : String
  files : FileInput
deriving DecidableEq, Repr

/-- `WindowsDriverFirmware.__init__`: runs `Firmware._filemap` on `files`;
an exception there propagates out of the constructor. -/
def mkWindowsDriverFirmware (d : SourceDecl) :
    Except PyError WindowsDriverFirmware :=
  match filemap d.files with
  | .ok m => .ok ⟨d.name, d.target_directory, d.source_directory, m⟩
  | .error e => .error e

/-- Building the module-level `sources` list: constructors run one after the
other at import time; the first exception aborts the whole run before `main`
even starts. -/
def mkCatalog (ds : List SourceDecl) :
    Except PyError (List WindowsDriverFirmware) :=
  ds.mapM mkWindowsDriverFirmware

/-! ## External tools and the patch bodies (getfw.py lines 128-214) -/

/-- One invocation of an external tool: the files it writes into the tree and
the exit status it returns.  `subprocess.call` hands the status back to the
caller and never raises on a non-zero status. -/
structure ToolRun where
  exit : Int
  writes : List (String × Entry)
deriving DecidableEq, Repr

/-- `subprocess.call([...])`: apply the tool's writes, return its exit
status. -/
def subprocess_call (t : ToolRun) (fs : FS) : Int × FS :=
  (t.exit, t.writes.foldl (fun a p => alInsert a p.1 p.2) fs)

/-- The behaviour of the three external tools in one run. -/
structure PatchEnv where
  pil_splitter : ToolRun
  bdencoder : ToolRun
  fwencoder : ToolRun
deriving DecidableEq, Repr

/-- `shutil.rmtree`: remove the subtree below `p`; raises
`FileNotFoundError` when the directory does not exist (in this model: when no
entry lies strictly below `p`). -/
def rmtree (p : String) (fs : FS) : Except PyError FS :=
  if fs.any (fun q => startswith q.1 (p ++ "/")) then
    .ok (fs.filter (fun q => !(startswith q.1 (p ++ "/"))))
  else
    .error (.fileNotFound p)

/-- `Path.unlink`: remove the entry at `p`; with `missing_ok` unset a missing
entry raises `FileNotFoundError`. -/
def unlink (p : String) (missing_ok : Bool) (fs : FS) : Except PyError FS :=
  match alLookup fs p with
  | some _ => .ok (alErase fs p)
  | none => if missing_ok then .ok fs else .error (.fileNotFound p)

/-- `Path.symlink_to`: create a symbolic link whose target string is
`target`; raises `FileExistsError` when something already exists at the link
path. -/
def symlink_to (link target : String) (fs : FS) : Except PyError FS :=
  match alLookup fs link with
  | some _ => .error (.fileExists link)
  | none => .ok (alInsert fs link (.symlink target))

def path_mbn_venus (out : String) : String :=
  pjoin (pjoin (pjoin out "qcom") PATH_PLATFORM) "qcvss8180.mbn"

def path_dir_venus (out : String) : String :=
  pjoin (pjoin out "qcom") PATH_VENUS

/-- `patch_venus_extract` (patch 1): run `pil-splitter.py` on the gathered
`qcvss8180.mbn` (exit status discarded), then copy the composite image to
`venus.mbn`. -/
def patch_venus_extract (env : PatchEnv) (out : String) (fs : FS) :
    Except PyError FS :=
  let r := subprocess_call env.pil_splitter fs
  copy (path_mbn_venus out) (pjoin (path_dir_venus out) "venus.mbn") r.2

def path_boards (out : String) : String :=
  pjoin (pjoin (pjoin (pjoin out "ath10k") "WCN3990") "hw1.0") "boards"

def path_board_out (out : String) : String :=
  pjoin (pjoin (pjoin (pjoin out "ath10k") "WCN3990") "hw1.0") "board-2.bin"

/-- The JSON spec `patch_ath10k_board` writes to a temporary file for
`ath10k-bdencoder`: one entry mapping the chosen bdf file to the board
name. -/
def ath10k_spec (out : String) : List (String × List String) :=
  [(pjoin (path_boards out) ATH10K_BOARD_FILE, [ATH10K_BOARD_NAME])]

/-- `patch_ath10k_board` (patch 2): write the JSON spec to a temporary file
(outside the output tree, not modelled), run `ath10k-bdencoder` (exit status
discarded), then `shutil.rmtree` the boards directory. -/
def patch_ath10k_board (env : PatchEnv) (out : String) (fs : FS) :
    Except PyError FS :=
  let r := subprocess_call env.bdencoder fs
  rmtree (path_boards out) r.2

/-- `patch_ath10k_firmware` (patch 3): run `ath10k-fwencoder --modify` on
`firmware-5.bin` (exit status discarded); nothing else. -/
def patch_ath10k_firmware (env : PatchEnv) (_out : String) (fs : FS) :
    Except PyError FS :=
  let r := subprocess_call env.fwencoder fs
  .ok r.2

/-- The fixed file list of `patch_qca_bt_symlinks`. -/
def qca_files : List String :=
  ["crbtfw21.tlv", "crnv21.b3c", "crnv21.b44", "crnv21.b45",
   "crnv21.b46", "crnv21.b47", "crnv21.b71", "crnv21.bin"]

/-- `patch_qca_bt_symlinks` (patch 4): for each canonical name, unlink the
alternate (`'21'` replaced by `'01'`) name with `missing_ok=True`, then
symlink it to the canonical name. -/
def patch_qca_bt_symlinks (out : String) (fs : FS) : Except PyError FS :=
  let base_path := pjoin out "qca"
  qca_files.foldlM
    (fun fs file => do
      let link := pjoin base_path (py_replace file "21" "01")
      let fs ← unlink link true fs
      symlink_to link file fs)
    fs

/-! ## The pipelines (getfw.py lines 325-367) -/

abbrev PatchFn := PatchEnv → String → FS → Except PyError FS

/-- The module-level `patches` list, in declaration order. -/
def patches : List (String × PatchFn) :=
  [("venus", patch_venus_extract),
   ("ath10k/board-2.bin", patch_ath10k_board),
   ("ath10k/firmware-5.bin", patch_ath10k_firmware),
   ("qca/bt", fun _ out fs => patch_qca_bt_symlinks out fs)]

/-- The `patch` driver: `for patch in patches: patch.apply(...)`.  Returns
the names attempted in order, the filesystem reached, and the first
uncaught exception if any (which aborts the loop). -/
def run_patches :
    List (String × PatchFn) → PatchEnv → String → FS →
      List String × FS × Option PyError
  | [], _, _, fs => ([], fs, none)
  | (n, f) :: rest, env, out, fs =>
    match f env out fs with
    | .error e => ([n], fs, some e)
    | .ok fs2 =>
      let r := run_patches rest env out fs2
      (n :: r.1, r.2.1, r.2.2)

abbrev SrcFn := Args → FS → Except PyError FS

/-- The `gather` driver: `for src in sources: src.get(...)`, same shape as
`run_patches`. -/
def run_sources :
    List (String × SrcFn) → Args → FS →
      List String × FS × Option PyError
  | [], _, fs => ([], fs, none)
  | (n, f) :: rest, args, fs =>
    match f args fs with
    | .error e => ([n], fs, some e)
    | .ok fs2 =>
      let r := run_sources rest args fs2
      (n :: r.1, r.2.1, r.2.2)

/-- `main` after argument parsing: `gather(...)` then — only when gather
raised nothing — `patch(...)` over the fixed `patches` list.  Result:
(gather trace, patch trace, final filesystem, first uncaught exception). -/
def main_run (ss : List (String × SrcFn)) (env : PatchEnv) (args : Args)
    (fs : FS) : List String × List String × FS × Option PyError :=
  let g := run_sources ss args fs
  match g.2.2 with
  | some e => (g.1, [], g.2.1, some e)
  | none =>
    let p := run_patches patches env args.path_out g.2.1
    (g.1, p.1, p.2.1, p.2.2)

/-! ## Derived forms used in the proofs -/

/-- The alternate-name link path of one canonical qca file name. -/
def qca_link (out file : String) : String :=
  pjoin (pjoin out "qca") (py_replace file "21" "01")

/-- The pure effect of one symlink-patch iteration (proved equal to the
Except-level step below). -/
def qca_step (out : String) (fs : FS) (file : String) : FS :=
  alErase fs (qca_link out file) ++ [(qca_link out file, Entry.symlink file)]

/-- The pure effect of the whole symlink patch. -/
def qca_apply (out : String) (fs : FS) : FS :=
  qca_files.foldl (qca_step out) fs

/-- One iteration of the symlink-patch loop, as written in
`patch_qca_bt_symlinks` (unlink with `missing_ok=True`, then symlink). -/
def qca_stepM (out : String) (fs : FS) (file : String) : Except PyError FS := do
  let link := pjoin (pjoin out "qca") (py_replace file "21" "01")
  let fs ← unlink link true fs
  symlink_to link file fs

/-! ## Association-list lemmas -/

theorem mem_alInsert {α : Type} {d : List (String × α)} {k : String} {v : α}
    {kv : String × α} (h : kv ∈ alInsert d k v) : kv = (k, v) ∨ kv ∈ d := by
  unfold alInsert at h
  split at h
  · rcases List.mem_map.mp h with ⟨p, hp, he⟩
    by_cases hk : (p.1 == k)
    · rw [if_pos hk] at he
      exact Or.inl he.symm
    · rw [if_neg hk] at he
      exact Or.inr (he ▸ hp)
  · rcases List.mem_append.mp h with h1 | h1
    · exact Or.inr h1
    · exact Or.inl (by simpa using h1)

theorem keys_alInsert_pos {α : Type} {d : List (String × α)} {k : String}
    {v : α} (h : d.any (fun p => p.1 == k) = true) :
    (alInsert d k v).map Prod.fst = d.map Prod.fst := by
  unfold alInsert
  rw [if_pos h, List.map_map]
  have hf : (Prod.fst ∘ fun p : String × α => if p.1 == k then (k, v) else p)
      = Prod.fst := by
    funext p
    by_cases hk : (p.1 == k)
    · simp only [Function.comp_apply, if_pos hk]
      exact (eq_of_beq hk).symm
    · simp only [Function.comp_apply, if_neg hk]
  rw [hf]

theorem keys_alInsert_neg {α : Type} {d : List (String × α)} {k : String}
    {v : α} (h : d.any (fun p => p.1 == k) = false) :
    (alInsert d k v).map Prod.fst = d.map Prod.fst ++ [k] := by
  unfold alInsert
  rw [if_neg (by simp [h]), List.map_append]
  rfl

theorem mem_keys_alInsert {α : Type} {d : List (String × α)} {k k' : String}
    {v : α} :
    k' ∈ (alInsert d k v).map Prod.fst ↔ k' = k ∨ k' ∈ d.map Prod.fst := by
  cases h : d.any (fun p => p.1 == k) with
  | true =>
    rw [keys_alInsert_pos h]
    have hk : k ∈ d.map Prod.fst := by
      rcases List.any_eq_true.mp h with ⟨p, hp, hpk⟩
      exact List.mem_map.mpr ⟨p, hp, eq_of_beq hpk⟩
    constructor
    · exact Or.inr
    · rintro (rfl | h2)
      exacts [hk, h2]
  | false =>
    rw [keys_alInsert_neg h, List.mem_append]
    simp [or_comm]

theorem keys_nodup_alInsert {α : Type} {d : List (String × α)} {k : String}
    {v : α} (h : (d.map Prod.fst).Nodup) :
    ((alInsert d k v).map Prod.fst).Nodup := by
  cases hh : d.any (fun p => p.1 == k) with
  | true => rw [keys_alInsert_pos hh]; exact h
  | false =>
    rw [keys_alInsert_neg hh, List.nodup_append]
    refine ⟨h, List.nodup_singleton k, ?_⟩
    intro x hx hx2
    have hxk : x = k := by simpa using hx2
    subst hxk
    rcases List.mem_map.mp hx with ⟨p, hp, hpk⟩
    have h3 := List.any_eq_false.mp hh p hp
    exact h3 (by simp [hpk])

theorem keys_foldl_mem (xs : List String) :
    ∀ (d : List (String × String)) (k : String),
      k ∈ (xs.foldl (fun d x => alInsert d x x) d).map Prod.fst ↔
        k ∈ d.map Prod.fst ∨ k ∈ xs := by
  induction xs with
  | nil => intro d k; simp
  | cons x xs ih =>
    intro d k
    rw [List.foldl_cons, ih, mem_keys_alInsert, List.mem_cons]
    tauto

theorem keys_foldl_nodup (xs : List String) :
    ∀ d : List (String × String), (d.map Prod.fst).Nodup →
      ((xs.foldl (fun d x => alInsert d x x) d).map Prod.fst).Nodup := by
  induction xs with
  | nil => intro d h; exact h
  | cons x xs ih =>
    intro d h
    rw [List.foldl_cons]
    exact ih _ (keys_nodup_alInsert h)

theorem snd_eq_fst_foldl (xs : List String) :
    ∀ d : List (String × String), (∀ kv ∈ d, kv.2 = kv.1) →
      ∀ kv ∈ xs.foldl (fun d x => alInsert d x x) d, kv.2 = kv.1 := by
  induction xs with
  | nil => intro d h; exact h
  | cons x xs ih =>
    intro d h
    rw [List.foldl_cons]
    refine ih _ ?_
    intro kv hkv
    rcases mem_alInsert hkv with rfl | h2
    · rfl
    · exact h kv h2

theorem alLookup_self_of_id :
    ∀ d : List (String × String), (∀ kv ∈ d, kv.2 = kv.1) →
      ∀ k ∈ d.map Prod.fst, alLookup d k = some k := by
  intro d
  induction d with
  | nil => simp
  | cons p rest ih =>
    intro hid k hk
    by_cases hp : (p.1 == k)
    · unfold alLookup
      rw [@List.find?_cons_of_pos _ (fun q => q.1 == k) p rest hp]
      have h2 := hid p (List.mem_cons_self p rest)
      simp only [Option.map_some']
      rw [h2]
      exact congrArg some (eq_of_beq hp)
    · unfold alLookup
      rw [@List.find?_cons_of_neg _ (fun q => q.1 == k) p rest hp]
      have hk2 : k ∈ rest.map Prod.fst := by
        rcases List.mem_map.mp hk with ⟨q, hq, hqk⟩
        rcases List.mem_cons.mp hq with rfl | hq2
        · exact absurd (beq_iff_eq.mpr hqk) hp
        · exact List.mem_map.mpr ⟨q, hq2, hqk⟩
      exact ih (fun kv hkv => hid kv (List.mem_cons_of_mem _ hkv)) k hk2

/-- `filemap` raises only the "invalid file map" exception. -/
theorem filemap_error {x : FileInput} {e : PyError}
    (h : filemap x = .error e) : e = .configurationError := by
  cases x with
  | flist xs => exact absurd h (by simp [filemap])
  | fdict m => exact absurd h (by simp [filemap])
  | other d =>
    simp only [filemap, Except.error.injEq] at h
    exact h.symm

/-! ## Claim theorems -/

/-- C3 (confirmed): for every sequence-shaped file-map input, normalization
succeeds and produces the identity mapping over that sequence — every entry
of the sequence looks up to itself, and every binding of the result maps an
entry of the sequence to itself. -/
theorem C3_theorem (xs : List String) (m : List (String × String))
    (h : filemap (.flist xs) = .ok m) :
    (∀ x ∈ xs, alLookup m x = some x) ∧ ∀ kv ∈ m, kv.2 = kv.1 ∧ kv.1 ∈ xs := by
  simp only [filemap, Except.ok.injEq] at h
  subst h
  constructor
  · intro x hx
    apply alLookup_self_of_id _ (snd_eq_fst_foldl xs [] (by simp))
    exact (keys_foldl_mem xs [] x).mpr (Or.inr hx)
  · intro kv hkv
    refine ⟨snd_eq_fst_foldl xs [] (by simp) kv hkv, ?_⟩
    have hmem : kv.1 ∈ (xs.foldl (fun d x => alInsert d x x) []).map Prod.fst :=
      List.mem_map.mpr ⟨kv, hkv, rfl⟩
    rcases (keys_foldl_mem xs [] kv.1).mp hmem with h1 | h1
    · exact absurd h1 (by simp)
    · exact h1

/-- C3 witness: `normalize(["a", "b"]) == {"a": "a", "b": "b"}`, with both
entries looking up to themselves. -/
theorem C3_witness :
    filemap (.flist ["a", "b"]) = .ok [("a", "a"), ("b", "b")] ∧
    alLookup [("a", "a"), ("b", "b")] "a" = some "a" ∧
    alLookup [("a", "a"), ("b", "b")] "b" = some "b" := by
  have h := C3_theorem ["a", "b"] [("a", "a"), ("b", "b")] rfl
  exact ⟨rfl, h.1 "a" (by simp), h.1 "b" (by simp)⟩

/-- C9 (confirmed): a sequence-shaped file-map input with duplicates
normalizes without error; the domain of the result has no duplicates and is
exactly the set of entries of the sequence. -/
theorem C9_theorem (xs : List String) (m : List (String × String))
    (h : filemap (.flist xs) = .ok m) :
    (m.map Prod.fst).Nodup ∧ ∀ k, k ∈ m.map Prod.fst ↔ k ∈ xs := by
  simp only [filemap, Except.ok.injEq] at h
  subst h
  refine ⟨keys_foldl_nodup xs [] (by simp), ?_⟩
  intro k
  rw [keys_foldl_mem]
  simp

/-- C9 witness: `["a", "b", "a"]` collapses to a two-entry mapping (fewer
entries than the three-element input), with a duplicate-free domain that
still contains `"a"`. -/
theorem C9_witness :
    filemap (.flist ["a", "b", "a"]) = .ok [("a", "a"), ("b", "b")] ∧
    ([("a", "a"), ("b", "b")].map Prod.fst).Nodup ∧
    ("a" ∈ [("a", "a"), ("b", "b")].map Prod.fst ↔ "a" ∈ ["a", "b", "a"]) ∧
    [("a", "a"), ("b", "b")].length < (["a", "b", "a"] : List String).length := by
  have h := C9_theorem ["a", "b", "a"] [("a", "a"), ("b", "b")] rfl
  exact ⟨rfl, h.1, h.2 "a", by simp⟩

/-- C4 (confirmed): a file-map input that is neither a sequence nor a
mapping makes normalization fail with the "invalid file map" exception (the
spec's `ConfigurationError`), never returns a mapping, and aborts the whole
catalog construction — i.e. the run — when any declared source carries such
an input. -/
theorem C4_theorem (desc : String) :
    filemap (.other desc) = .error .configurationError ∧
    (∀ m, filemap (.other desc) ≠ .ok m) ∧
    ∀ (ds : List SourceDecl) (d : SourceDecl), d ∈ ds →
      d.files = .other desc → mkCatalog ds = .error .configurationError := by
  refine ⟨rfl, fun m h => by simp [filemap] at h, ?_⟩
  intro ds
  induction ds with
  | nil => intro d h; exact absurd h (List.not_mem_nil d)
  | cons a ds ih =>
    intro d hmem hfiles
    unfold mkCatalog
    rw [List.mapM_cons]
    rcases List.mem_cons.mp hmem with rfl | h2
    · have hbad : mkWindowsDriverFirmware d = .error .configurationError := by
        unfold mkWindowsDriverFirmware
        rw [hfiles]
        rfl
      rw [hbad]
      rfl
    · cases ha : mkWindowsDriverFirmware a with
      | error e =>
        have he : e = .configurationError := by
          unfold mkWindowsDriverFirmware at ha
          cases hf : filemap a.files with
          | ok m => rw [hf] at ha; exact absurd ha (by simp)
          | error e2 =>
            rw [hf] at ha
            simp only [Except.error.injEq] at ha
            exact ha ▸ filemap_error hf
        subst he
        rfl
      | ok w =>
        have hrec := ih d h2 hfiles
        unfold mkCatalog at hrec
        show (List.mapM mkWindowsDriverFirmware ds >>= fun ys =>
          pure (w :: ys)) = Except.error PyError.configurationError
        rw [hrec]
        rfl

/-- C4 witness: a source declared with the Python integer `3` as its file
map aborts catalog construction with the configuration error. -/
theorem C4_witness :
    filemap (.other "3") = .error .configurationError ∧
    mkCatalog [⟨"mcfg", "qcom", "surfaceprox_mcfg", .other "3"⟩] =
      .error .configurationError := by
  have h := C4_theorem "3"
  exact ⟨h.1,
    h.2.2 [⟨"mcfg", "qcom", "surfaceprox_mcfg", .other "3"⟩]
      ⟨"mcfg", "qcom", "surfaceprox_mcfg", .other "3"⟩ (by simp) rfl⟩

/-- C5 (confirmed): local-source resolution returns the first child of the
listing whose name starts with the prefix (the head of the filtered
listing), and whatever it returns starts with the prefix. -/
theorem C5_theorem (listing : List String) (sdir : String) :
    find_source_directory listing sdir =
      (listing.filter (fun x => startswith x sdir)).head? ∧
    ∀ d, find_source_directory listing sdir = some d →
      startswith d sdir = true := by
  constructor
  · induction listing with
    | nil => rfl
    | cons a l ih =>
      by_cases ha : (startswith a sdir)
      · unfold find_source_directory
        rw [@List.find?_cons_of_pos _ (fun x => startswith x sdir) a l ha,
          @List.filter_cons_of_pos _ (fun x => startswith x sdir) a l ha]
        rfl
      · unfold find_source_directory at ih ⊢
        rw [@List.find?_cons_of_neg _ (fun x => startswith x sdir) a l ha,
          @List.filter_cons_of_neg _ (fun x => startswith x sdir) a l ha]
        exact ih
  · intro d h
    unfold find_source_directory at h
    exact @List.find?_some _ (fun p => startswith p sdir) d listing h

/-- C5 witness: over siblings `foo8180`, `foobar`, `baz` with prefix `foo`,
resolution yields `foo8180` — the first match — and never `baz`, since the
result starts with `foo`. -/
theorem C5_witness :
    find_source_directory ["foo8180", "foobar", "baz"] "foo" = some "foo8180" ∧
    startswith "foo8180" "foo" = true := by
  have h := C5_theorem ["foo8180", "foobar", "baz"] "foo"
  exact ⟨rfl, h.2 "foo8180" rfl⟩

/-- C10 (confirmed): logger nesting is bounded at three levels — `sub()` on
a level-0 or level-1 logger yields the next prefix-table entry, `sub()` on a
level-2 logger fails with `IndexError`, and every logger the constructor
returns has level at most 2. -/
theorem C10_theorem :
    (∀ l : Logger, l.level ≤ 1 →
        Logger.sub l = .ok ⟨l.level + 1, log_pfx.getD (l.level + 1) ""⟩) ∧
    (∀ l : Logger, l.level = 2 → Logger.sub l = .error .indexError) ∧
    ∀ (n : Nat) (l : Logger), Logger.init n = .ok l → l.level ≤ 2 := by
  refine ⟨?_, ?_, ?_⟩
  · rintro ⟨lv, p⟩ h
    simp only at h
    interval_cases lv
    · rfl
    · rfl
  · rintro ⟨lv, p⟩ h
    simp only at h
    subst h
    rfl
  · intro n l h
    unfold Logger.init at h
    cases hn : log_pfx[n]? with
    | none => rw [hn] at h; exact absurd h (by simp)
    | some p =>
      rw [hn] at h
      simp only [Except.ok.injEq] at h
      obtain ⟨hlen, _⟩ := List.getElem?_eq_some.mp hn
      have h3 : n < 3 := by simpa [log_pfx] using hlen
      subst h
      show n ≤ 2
      omega

/-- C10 witness: `sub()` on a level-1 logger yields the level-2 logger with
the third prefix; `sub()` on a level-2 logger raises `IndexError`. -/
theorem C10_witness :
    Logger.sub ⟨1, " -> "⟩ = .ok ⟨2, "    "⟩ ∧
    Logger.sub ⟨2, "    "⟩ = .error .indexError := by
  have h := C10_theorem
  exact ⟨h.1 ⟨1, " -> "⟩ (by decide), h.2.1 ⟨2, "    "⟩ rfl⟩

/-- C1 counterexample: with a repository listing whose only child `baz` does
not start with the prefix, resolution returns `None` (not a
`SourceNotFoundError`), and the gather step proceeds into the copy loop,
failing there with the `TypeError` from `None / s` — by construction of
`WindowsDriverFirmware.get`, `.typeError` can only arise inside the
per-file copy loop, so the copy step *was* entered with an absent base
directory, contradicting the claim. -/
theorem C1_counterexample :
    find_source_directory ["baz"] "qcbtfmuart8180" = none ∧
    WindowsDriverFirmware.get
        ⟨"bluetooth", "qca", "qcbtfmuart8180",
          [("crbtfw21.tlv", "crbtfw21.tlv")]⟩ ⟨["baz"], "out"⟩ []
      = .error .typeError ∧
    PyError.typeError ≠ PyError.sourceNotFound "qcbtfmuart8180" "wdsfr" :=
  ⟨rfl, rfl, by decide⟩

/-- C1 (corrected): when no direct child of the repository root starts with
the configured prefix, resolution raises nothing and returns `None`; the
copy step is then entered anyway — it succeeds vacuously for an empty file
map, and for a non-empty file map it fails with a `TypeError` from
`None / s` rather than a `SourceNotFoundError`. -/
theorem C1_theorem (fw : WindowsDriverFirmware) (args : Args) (fs : FS)
    (h : ∀ d ∈ args.wdsfr_listing, startswith d fw.source_directory = false) :
    find_source_directory args.wdsfr_listing fw.source_directory = none ∧
    (fw.files = [] → fw.get args fs = .ok fs) ∧
    ∀ s t rest, fw.files = (s, t) :: rest →
      fw.get args fs = .error .typeError := by
  have hnone :
      find_source_directory args.wdsfr_listing fw.source_directory = none := by
    apply List.find?_eq_none.mpr
    intro x hx
    simp [h x hx]
  refine ⟨hnone, ?_, ?_⟩
  · intro hfiles
    unfold WindowsDriverFirmware.get
    rw [hfiles]
    rfl
  · intro s t rest hfiles
    simp only [WindowsDriverFirmware.get, hnone, hfiles, List.foldlM_cons]
    rfl

/-- C1 witness for the amended claim, at a concrete non-matching listing. -/
theorem C1_witness :
    find_source_directory ["FileRepo"] "qcwlan8180" = none ∧
    WindowsDriverFirmware.get
        ⟨"wlan/vendor", "qcom/msft/surface/pro-x-sq2", "qcwlan8180",
          [("wlanmdsp.mbn", "wlanmdsp.mbn")]⟩ ⟨["FileRepo"], "out"⟩ []
      = .error .typeError := by
  have h := C1_theorem
    ⟨"wlan/vendor", "qcom/msft/surface/pro-x-sq2", "qcwlan8180",
      [("wlanmdsp.mbn", "wlanmdsp.mbn")]⟩ ⟨["FileRepo"], "out"⟩ []
    (by decide)
  exact ⟨h.1, h.2.2 "wlanmdsp.mbn" "wlanmdsp.mbn" [] rfl⟩

/-- C6 (confirmed): the gather loop is fail-fast — when all sources before
one fail-free and that source's materialization raises, the run attempts
exactly the earlier sources followed by the failing one (nothing after it),
and the filesystem keeps everything the earlier sources copied. -/
theorem C6_theorem (pre : List (String × SrcFn)) :
    ∀ (n : String) (f : SrcFn) (post : List (String × SrcFn)) (args : Args)
      (fs fs1 : FS) (tr : List String) (e : PyError),
      run_sources pre args fs = (tr, fs1, none) →
      f args fs1 = .error e →
      run_sources (pre ++ (n, f) :: post) args fs = (tr ++ [n], fs1, some e) := by
  induction pre with
  | nil =>
    intro n f post args fs fs1 tr e h1 h2
    have h1' : (([], fs, none) : List String × FS × Option PyError)
        = (tr, fs1, none) := h1
    simp only [Prod.mk.injEq] at h1'
    obtain ⟨rfl, rfl, -⟩ := h1'
    simp only [List.nil_append, run_sources, h2]
  | cons hd pre ih =>
    intro n f post args fs fs1 tr e h1 h2
    obtain ⟨m, g⟩ := hd
    simp only [List.cons_append, run_sources] at h1 ⊢
    cases hg : g args fs with
    | error e2 =>
      simp only [hg] at h1
      exact absurd h1 (by simp)
    | ok fs2 =>
      simp only [hg] at h1 ⊢
      simp only [Prod.mk.injEq] at h1
      obtain ⟨h3, h4, h5⟩ := h1
      have hpre : run_sources pre args fs2
          = ((run_sources pre args fs2).1, fs1, none) := by
        rw [← h4, ← h5]
      have hstep := ih n f post args fs2 fs1 (run_sources pre args fs2).1 e
        hpre h2
      simp only [List.append_eq]
      rw [hstep, ← h3]
      simp

/-- C6 witness: a three-source catalog whose second source fails — the trace
stops at source 2, source 3 is never attempted, and the file copied by
source 1 is still present. -/
theorem C6_witness :
    run_sources
        [("s1", fun _ fs => .ok (alInsert fs "f1" (.file "a"))),
         ("s2", fun _ _ => .error (.fileNotFound "x")),
         ("s3", fun _ fs => .ok (alInsert fs "f3" (.file "c")))]
        ⟨[], "out"⟩ []
      = (["s1", "s2"], [("f1", .file "a")], some (.fileNotFound "x")) := by
  have h := C6_theorem
    [("s1", fun _ fs => .ok (alInsert fs "f1" (.file "a")))]
    "s2" (fun _ _ => .error (.fileNotFound "x"))
    [("s3", fun _ fs => .ok (alInsert fs "f3" (.file "c")))]
    ⟨[], "out"⟩ [] [("f1", .file "a")] ["s1"] (.fileNotFound "x") rfl rfl
  exact h

/-- C2 counterexample: with the calibration-bundle encoder exiting with
status 1 (a failed external invocation), the patch loop over patches 2-4
still attempts *all three* patches and finishes without error — the
non-zero exit does not abort the patch phase, contradicting the claim. -/
theorem C2_counterexample :
    (run_patches (patches.drop 1) ⟨⟨0, []⟩, ⟨1, []⟩, ⟨0, []⟩⟩ "out"
        [("out/ath10k/WCN3990/hw1.0/boards/bdwlan.b58", .file "bdf")]).1
      = ["ath10k/board-2.bin", "ath10k/firmware-5.bin", "qca/bt"] ∧
    (run_patches (patches.drop 1) ⟨⟨0, []⟩, ⟨1, []⟩, ⟨0, []⟩⟩ "out"
        [("out/ath10k/WCN3990/hw1.0/boards/bdwlan.b58", .file "bdf")]).2.2
      = none ∧
    (⟨⟨0, []⟩, ⟨1, []⟩, ⟨0, []⟩⟩ : PatchEnv).bdencoder.exit ≠ 0 :=
  ⟨rfl, rfl, by decide⟩

/-- C2 (corrected): for patches 2-4, a failure signalled as a Python
exception (such as a missing input file or another filesystem error) aborts
the patch phase at that patch — it is not retried and no later patch runs;
but a non-zero exit status from an external tool invocation is *not* such a
failure: `subprocess.call`'s status is discarded, so e.g. the feature-flag
patch always succeeds no matter how its encoder exits. -/
theorem C2_theorem :
    (∀ (n : String) (f : PatchFn) (rest : List (String × PatchFn))
        (env : PatchEnv) (out : String) (fs : FS) (e : PyError),
        f env out fs = .error e →
        run_patches ((n, f) :: rest) env out fs = ([n], fs, some e)) ∧
    ∀ (env : PatchEnv) (out : String) (fs : FS),
      patch_ath10k_firmware env out fs
        = .ok (subprocess_call env.fwencoder fs).2 := by
  constructor
  · intro n f rest env out fs e h
    simp only [run_patches, h]
  · intro env out fs
    rfl

/-- C2 witness: the board patch on an output tree with no boards directory
raises `FileNotFoundError` from `shutil.rmtree`; the loop stops there and
the remaining patches are never attempted. -/
theorem C2_witness :
    run_patches (("ath10k/board-2.bin", patch_ath10k_board) :: patches.drop 2)
        ⟨⟨0, []⟩, ⟨0, []⟩, ⟨0, []⟩⟩ "out" []
      = (["ath10k/board-2.bin"], [],
          some (.fileNotFound "out/ath10k/WCN3990/hw1.0/boards")) :=
  C2_theorem.1 "ath10k/board-2.bin" patch_ath10k_board (patches.drop 2)
    ⟨⟨0, []⟩, ⟨0, []⟩, ⟨0, []⟩⟩ "out" []
    (.fileNotFound "out/ath10k/WCN3990/hw1.0/boards") rfl

/-- The attempted-patch trace is always an initial segment of the declared
patch names. -/
theorem run_patches_trace_take (ps : List (String × PatchFn)) (env : PatchEnv)
    (out : String) :
    ∀ fs, (run_patches ps env out fs).1 =
      (ps.map Prod.fst).take (run_patches ps env out fs).1.length := by
  induction ps with
  | nil => intro fs; rfl
  | cons hd rest ih =>
    intro fs
    obtain ⟨n, f⟩ := hd
    simp only [run_patches]
    cases hf : f env out fs with
    | error e => simp only [hf]; simp
    | ok fs2 =>
      simp only [hf, List.map_cons, List.length_cons, List.take_succ_cons]
      exact congrArg (n :: ·) (ih fs2)

/-- When the patch loop finishes without an exception, its trace is exactly
the declared list of patch names. -/
theorem run_patches_trace_of_ok (ps : List (String × PatchFn)) (env : PatchEnv)
    (out : String) :
    ∀ fs, (run_patches ps env out fs).2.2 = none →
      (run_patches ps env out fs).1 = ps.map Prod.fst := by
  induction ps with
  | nil => intro fs _; rfl
  | cons hd rest ih =>
    intro fs h
    obtain ⟨n, f⟩ := hd
    simp only [run_patches] at h ⊢
    cases hf : f env out fs with
    | error e =>
      simp only [hf] at h
      exact absurd h (by simp)
    | ok fs2 =>
      simp only [hf] at h ⊢
      simp only [List.map_cons]
      exact congrArg (n :: ·) (ih fs2 h)

/-- C8 (confirmed): the patch phase runs only after a fail-free gather phase
(a gather failure leaves the patch trace empty); when it runs, the attempted
patches form an initial segment of the declared order `venus`,
`ath10k/board-2.bin`, `ath10k/firmware-5.bin`, `qca/bt` — so each patch is
attempted at most once and in declaration order — and when the whole phase
succeeds every patch was applied exactly once, in exactly that order. -/
theorem C8_theorem (ss : List (String × SrcFn)) (env : PatchEnv) (args : Args)
    (fs : FS) :
    (∀ tr fs1 e, run_sources ss args fs = (tr, fs1, some e) →
        main_run ss env args fs = (tr, [], fs1, some e)) ∧
    ∀ tr fs1, run_sources ss args fs = (tr, fs1, none) →
      (main_run ss env args fs).2.1 =
        (patches.map Prod.fst).take (main_run ss env args fs).2.1.length ∧
      ((main_run ss env args fs).2.2.2 = none →
        (main_run ss env args fs).2.1 =
          ["venus", "ath10k/board-2.bin", "ath10k/firmware-5.bin", "qca/bt"]) := by
  constructor
  · intro tr fs1 e h
    simp only [main_run, h]
  · intro tr fs1 h
    simp only [main_run, h]
    refine ⟨run_patches_trace_take patches env args.path_out fs1, ?_⟩
    intro h2
    exact run_patches_trace_of_ok patches env args.path_out fs1 h2

/-- C8 witness: a concrete run with one trivial source and an output tree
holding the venus image and a boards file: gather succeeds, every patch
succeeds, and the patch trace is exactly the four declared names in
order. -/
theorem C8_witness :
    (main_run [("s1", fun _ fs => .ok fs)] ⟨⟨0, []⟩, ⟨0, []⟩, ⟨0, []⟩⟩
        ⟨[], "out"⟩
        [("out/qcom/msft/surface/pro-x-sq2/qcvss8180.mbn", .file "mbn"),
         ("out/ath10k/WCN3990/hw1.0/boards/bdwlan.b58", .file "bdf")]).2.1
      = ["venus", "ath10k/board-2.bin", "ath10k/firmware-5.bin", "qca/bt"] := by
  have h := (C8_theorem [("s1", fun _ fs => .ok fs)] ⟨⟨0, []⟩, ⟨0, []⟩, ⟨0, []⟩⟩
    ⟨[], "out"⟩
    [("out/qcom/msft/surface/pro-x-sq2/qcvss8180.mbn", .file "mbn"),
     ("out/ath10k/WCN3990/hw1.0/boards/bdwlan.b58", .file "bdf")]).2
    ["s1"]
    [("out/qcom/msft/surface/pro-x-sq2/qcvss8180.mbn", .file "mbn"),
     ("out/ath10k/WCN3990/hw1.0/boards/bdwlan.b58", .file "bdf")] rfl
  exact h.2 rfl

/-! ## The symlink patch (C7) -/

theorem alLookup_alErase {α : Type} (d : List (String × α)) (k : String) :
    alLookup (alErase d k) k = none := by
  unfold alLookup
  rw [Option.map_eq_none']
  apply List.find?_eq_none.mpr
  intro p hp
  have h2 := (List.mem_filter.mp hp).2
  simp only [Bool.not_eq_true'] at h2
  simp [h2]

theorem alErase_of_lookup_none {α : Type} {d : List (String × α)} {k : String}
    (h : alLookup d k = none) : alErase d k = d := by
  unfold alLookup at h
  unfold alErase
  apply List.filter_eq_self.mpr
  intro p hp
  have h2 := List.find?_eq_none.mp (Option.map_eq_none'.mp h) p hp
  simp at h2 ⊢
  exact h2

theorem any_eq_false_of_lookup_none {α : Type} {d : List (String × α)}
    {k : String} (h : alLookup d k = none) :
    d.any (fun p => p.1 == k) = false := by
  unfold alLookup at h
  apply List.any_eq_false.mpr
  intro p hp
  exact List.find?_eq_none.mp (Option.map_eq_none'.mp h) p hp

theorem alInsert_of_lookup_none {α : Type} {d : List (String × α)} {k : String}
    {v : α} (h : alLookup d k = none) : alInsert d k v = d ++ [(k, v)] := by
  unfold alInsert
  rw [if_neg (by simp [any_eq_false_of_lookup_none h])]

/-- `Path.unlink(missing_ok=True)` never raises: it removes the entry when
present and does nothing otherwise — in both cases the result is the erased
list. -/
theorem unlink_true_eq (p : String) (fs : FS) :
    unlink p true fs = .ok (alErase fs p) := by
  unfold unlink
  cases h : alLookup fs p with
  | some e => rfl
  | none =>
    rw [alErase_of_lookup_none h]
    rfl

/-- One loop iteration never raises: the unlink runs with `missing_ok=True`
and the symlink is created right after the link path was removed. -/
theorem qca_stepM_eq (out file : String) (fs : FS) :
    qca_stepM out fs file = .ok (qca_step out fs file) := by
  unfold qca_stepM
  show (unlink (qca_link out file) true fs >>= fun fs2 =>
      symlink_to (qca_link out file) file fs2) = .ok (qca_step out fs file)
  rw [unlink_true_eq]
  show symlink_to (qca_link out file) file (alErase fs (qca_link out file))
    = .ok (qca_step out fs file)
  unfold symlink_to
  rw [alLookup_alErase]
  unfold qca_step
  exact congrArg Except.ok
    (alInsert_of_lookup_none (alLookup_alErase fs (qca_link out file)))

theorem foldlM_qca_stepM (out : String) :
    ∀ (L : List String) (fs : FS),
      L.foldlM (qca_stepM out) fs = .ok (L.foldl (qca_step out) fs) := by
  intro L
  induction L with
  | nil => intro fs; rfl
  | cons x L ih =>
    intro fs
    rw [List.foldlM_cons, List.foldl_cons, qca_stepM_eq]
    show List.foldlM (qca_stepM out) (qca_step out fs x) L = _
    exact ih (qca_step out fs x)

/-- The whole symlink patch never raises; its effect is `qca_apply`. -/
theorem patch_qca_eq (out : String) (fs : FS) :
    patch_qca_bt_symlinks out fs = .ok (qca_apply out fs) :=
  foldlM_qca_stepM out qca_files fs

/-- Closed form of the symlink-patch effect: drop every entry at a link
path, then append one symlink per canonical name, in order. -/
theorem foldl_qca_step (out : String) :
    ∀ L : List String, (L.map (qca_link out)).Nodup →
      ∀ fs : FS, L.foldl (qca_step out) fs =
        fs.filter (fun p => !((L.map (qca_link out)).contains p.1)) ++
          L.map (fun f => (qca_link out f, Entry.symlink f)) := by
  intro L
  induction L with
  | nil => intro _ fs; simp
  | cons x L ih =>
    intro hnd fs
    rw [List.map_cons, List.nodup_cons] at hnd
    obtain ⟨hx, hnd2⟩ := hnd
    rw [List.foldl_cons, ih hnd2 (qca_step out fs x)]
    unfold qca_step
    rw [List.filter_append]
    unfold alErase
    rw [List.filter_filter]
    rw [List.map_cons]
    have hpred : ∀ p : String × Entry,
        (!((qca_link out x :: L.map (qca_link out)).contains p.1))
          = ((!((L.map (qca_link out)).contains p.1))
              && !(p.1 == qca_link out x)) := by
      intro p
      rw [List.contains_cons]
      cases hc1 : (p.1 == qca_link out x) <;>
        cases hc2 : ((L.map (qca_link out)).contains p.1) <;> simp [hc1, hc2]
    have hright : fs.filter
        (fun p => !((qca_link out x :: L.map (qca_link out)).contains p.1))
        = fs.filter (fun p => (!((L.map (qca_link out)).contains p.1))
            && !(p.1 == qca_link out x)) :=
      List.filter_congr (fun p _ => hpred p)
    rw [hright]
    have hone : [(qca_link out x, Entry.symlink x)].filter
        (fun p => !((L.map (qca_link out)).contains p.1))
        = [(qca_link out x, Entry.symlink x)] := by
      rw [List.filter_cons_of_pos (by simp [hx])]
      rfl
    rw [hone]
    simp

theorem pjoin_right_injective (a : String) :
    ∀ x y : String, pjoin a x = pjoin a y → x = y := by
  intro x y h
  have h3 : (pjoin a x).data = (pjoin a y).data := congrArg String.data h
  unfold pjoin at h3
  simp only [String.data_append, List.append_assoc] at h3
  have h4 := List.append_cancel_left h3
  have h5 := List.append_cancel_left h4
  cases x
  cases y
  exact congrArg String.mk h5

/-- The eight alternate link paths are pairwise distinct. -/
theorem qca_links_nodup (out : String) :
    (qca_files.map (qca_link out)).Nodup := by
  have h0 : qca_files.map (qca_link out)
      = (qca_files.map (fun f => py_replace f "21" "01")).map
          (fun s => pjoin (pjoin out "qca") s) := by
    rw [List.map_map]
    rfl
  rw [h0]
  apply List.Nodup.map
  · intro x y hxy
    exact pjoin_right_injective (pjoin out "qca") x y hxy
  · decide

theorem filter_pairs_nil (out : String) (l : String) :
    ∀ L : List String, l ∉ L.map (qca_link out) →
      (L.map (fun f => (qca_link out f, Entry.symlink f))).filter
          (fun p => p.1 == l) = [] := by
  intro L
  induction L with
  | nil => intro _; rfl
  | cons x L ih =>
    intro h
    rw [List.map_cons] at h
    have h1 : l ≠ qca_link out x := fun hc => h (by simp [hc])
    have h2 : l ∉ L.map (qca_link out) :=
      fun hc => h (List.mem_cons_of_mem _ hc)
    rw [List.map_cons, List.filter_cons_of_neg]
    · exact ih h2
    · intro hc
      exact h1 (eq_of_beq hc).symm

theorem filter_pairs_single (out : String) (name : String) :
    ∀ L : List String, (L.map (qca_link out)).Nodup → name ∈ L →
      (L.map (fun f => (qca_link out f, Entry.symlink f))).filter
          (fun p => p.1 == qca_link out name)
        = [(qca_link out name, Entry.symlink name)] := by
  intro L
  induction L with
  | nil => intro _ h; exact absurd h (List.not_mem_nil name)
  | cons x L ih =>
    intro hnd hmem
    rw [List.map_cons, List.nodup_cons] at hnd
    rcases List.mem_cons.mp hmem with rfl | h2
    · rw [List.map_cons, List.filter_cons_of_pos (by simp)]
      rw [filter_pairs_nil out (qca_link out name) L hnd.1]
    · have hne : qca_link out x ≠ qca_link out name := by
        intro hc
        apply hnd.1
        rw [hc]
        exact List.mem_map.mpr ⟨name, h2, rfl⟩
      rw [List.map_cons, List.filter_cons_of_neg]
      · exact ih hnd.2 h2
      · intro hc
        exact hne (eq_of_beq hc)

/-- C7 (confirmed): the symlink patch is idempotent — after one run
produced `fs1`, a second run raises no error and returns `fs1` unchanged,
and `fs1` holds exactly one entry at each alternate (01-numbered) link path,
a symbolic link whose target is the corresponding canonical (21-numbered)
name. -/
theorem C7_theorem (out : String) (fs fs1 : FS)
    (h : patch_qca_bt_symlinks out fs = .ok fs1) :
    patch_qca_bt_symlinks out fs1 = .ok fs1 ∧
    ∀ name ∈ qca_files,
      fs1.filter (fun p => p.1 == qca_link out name)
        = [(qca_link out name, Entry.symlink name)] := by
  have hnd := qca_links_nodup out
  have h1 := patch_qca_eq out fs
  rw [h] at h1
  have hfs1 : fs1 = qca_apply out fs := by simpa using h1
  subst hfs1
  have happ : ∀ g : FS, qca_apply out g =
      g.filter (fun p => !((qca_files.map (qca_link out)).contains p.1)) ++
        qca_files.map (fun f => (qca_link out f, Entry.symlink f)) := by
    intro g
    unfold qca_apply
    exact foldl_qca_step out qca_files hnd g
  have hP : (qca_files.map (fun f => (qca_link out f, Entry.symlink f))).filter
      (fun p => !((qca_files.map (qca_link out)).contains p.1)) = [] := by
    apply List.filter_eq_nil_iff.mpr
    intro p hp
    rcases List.mem_map.mp hp with ⟨f, hf, rfl⟩
    have hm : qca_link out f ∈ qca_files.map (qca_link out) :=
      List.mem_map.mpr ⟨f, hf, rfl⟩
    simp [hm]
  constructor
  · have hidem : qca_apply out (qca_apply out fs) = qca_apply out fs := by
      have hA : fs.filter (fun a =>
          (!((qca_files.map (qca_link out)).contains a.1)) &&
            !((qca_files.map (qca_link out)).contains a.1))
          = fs.filter
              (fun a => !((qca_files.map (qca_link out)).contains a.1)) :=
        List.filter_congr (fun a _ => Bool.and_self _)
      calc qca_apply out (qca_apply out fs)
          = (qca_apply out fs).filter
              (fun p => !((qca_files.map (qca_link out)).contains p.1)) ++
              qca_files.map (fun f => (qca_link out f, Entry.symlink f)) :=
            happ (qca_apply out fs)
        _ = ((fs.filter
              (fun p => !((qca_files.map (qca_link out)).contains p.1)) ++
              qca_files.map (fun f => (qca_link out f, Entry.symlink f))).filter
              (fun p => !((qca_files.map (qca_link out)).contains p.1))) ++
              qca_files.map (fun f => (qca_link out f, Entry.symlink f)) := by
            rw [happ fs]
        _ = qca_apply out fs := by
            rw [List.filter_append, List.filter_filter, hA, hP, happ fs]
            simp
    rw [patch_qca_eq out (qca_apply out fs), hidem]
  · intro name hname
    have hA : (fs.filter
        (fun p => !((qca_files.map (qca_link out)).contains p.1))).filter
        (fun p => p.1 == qca_link out name) = [] := by
      apply List.filter_eq_nil_iff.mpr
      intro p hp
      have h2 := (List.mem_filter.mp hp).2
      simp only [Bool.not_eq_true'] at h2
      intro hc
      have h3 := eq_of_beq hc
      rw [h3] at h2
      have hm : qca_link out name ∈ qca_files.map (qca_link out) :=
        List.mem_map.mpr ⟨name, hname, rfl⟩
      simp [hm] at h2
    calc (qca_apply out fs).filter (fun p => p.1 == qca_link out name)
        = (fs.filter
            (fun p => !((qca_files.map (qca_link out)).contains p.1)) ++
            qca_files.map (fun f => (qca_link out f, Entry.symlink f))).filter
            (fun p => p.1 == qca_link out name) := by rw [happ fs]
      _ = [(qca_link out name, Entry.symlink name)] := by
          rw [List.filter_append, hA,
            filter_pairs_single out name qca_files hnd hname]
          rfl

/-- C7 witness: on the tree already produced by one run over an empty
output (the eight links), a second run returns the same tree with no error,
and the `crbtfw01.tlv` link is present exactly once, targeting
`crbtfw21.tlv`. -/
theorem C7_witness :
    patch_qca_bt_symlinks "out"
        [("out/qca/crbtfw01.tlv", .symlink "crbtfw21.tlv"),
         ("out/qca/crnv01.b3c", .symlink "crnv21.b3c"),
         ("out/qca/crnv01.b44", .symlink "crnv21.b44"),
         ("out/qca/crnv01.b45", .symlink "crnv21.b45"),
         ("out/qca/crnv01.b46", .symlink "crnv21.b46"),
         ("out/qca/crnv01.b47", .symlink "crnv21.b47"),
         ("out/qca/crnv01.b71", .symlink "crnv21.b71"),
         ("out/qca/crnv01.bin", .symlink "crnv21.bin")]
      = .ok
        [("out/qca/crbtfw01.tlv", .symlink "crbtfw21.tlv"),
         ("out/qca/crnv01.b3c", .symlink "crnv21.b3c"),
         ("out/qca/crnv01.b44", .symlink "crnv21.b44"),
         ("out/qca/crnv01.b45", .symlink "crnv21.b45"),
         ("out/qca/crnv01.b46", .symlink "crnv21.b46"),
         ("out/qca/crnv01.b47", .symlink "crnv21.b47"),
         ("out/qca/crnv01.b71", .symlink "crnv21.b71"),
         ("out/qca/crnv01.bin", .symlink "crnv21.bin")] ∧
    ([("out/qca/crbtfw01.tlv", (.symlink "crbtfw21.tlv" : Entry)),
      ("out/qca/crnv01.b3c", .symlink "crnv21.b3c"),
      ("out/qca/crnv01.b44", .symlink "crnv21.b44"),
      ("out/qca/crnv01.b45", .symlink "crnv21.b45"),
      ("out/qca/crnv01.b46", .symlink "crnv21.b46"),
      ("out/qca/crnv01.b47", .symlink "crnv21.b47"),
      ("out/qca/crnv01.b71", .symlink "crnv21.b71"),
      ("out/qca/crnv01.bin", .symlink "crnv21.bin")]).filter
        (fun p => p.1 == qca_link "out" "crbtfw21.tlv")
      = [(qca_link "out" "crbtfw21.tlv", Entry.symlink "crbtfw21.tlv")] := by
  have h := C7_theorem "out" []
    [("out/qca/crbtfw01.tlv", .symlink "crbtfw21.tlv"),
     ("out/qca/crnv01.b3c", .symlink "crnv21.b3c"),
     ("out/qca/crnv01.b44", .symlink "crnv21.b44"),
     ("out/qca/crnv01.b45", .symlink "crnv21.b45"),
     ("out/qca/crnv01.b46", .symlink "crnv21.b46"),
     ("out/qca/crnv01.b47", .symlink "crnv21.b47"),
     ("out/qca/crnv01.b71", .symlink "crnv21.b71"),
     ("out/qca/crnv01.bin", .symlink "crnv21.bin")] rfl
  exact ⟨h.1, h.2 "crbtfw21.tlv" (by simp [qca_files])⟩

end Getfw
